import Mathlib

set_option maxRecDepth 4000

/-!
Shallow embedding of the documentation-generation scripts of this repository:
`scripts/generate_cli_command_docs.py`, `scripts/generate_launch_docs.py` and
`scripts/generate_template_md.py`.  Strings are Lean strings (lists of
characters); external subprocess invocations are modelled by an oracle mapping
a command vector to its outcome; the filesystem inputs of the template
renderer are modelled by explicit parameters.
-/

/-- Whitespace characters of the Python regex class `\s` and of `str.strip`
(ASCII range; the scripts only ever process ASCII help text). -/
def isPySpace (c : Char) : Bool :=
  c = ' ' || c = '\t' || c = '\n' || c = '\r' || c = '\x0b' || c = '\x0c'

/-- Python `str.strip()` with no argument: drop leading and trailing whitespace. -/
def pyStrip (s : String) : String :=
  ⟨((s.data.dropWhile isPySpace).reverse.dropWhile isPySpace).reverse⟩

/-- Substring containment on character lists, i.e. Python's `needle in hay`. -/
def containsSub (hay needle : List Char) : Bool :=
  match hay with
  | [] => needle.isPrefixOf ([] : List Char)
  | _ :: t => needle.isPrefixOf hay || containsSub t needle

/-- The marker phrase scanned for by `extract_subcommands`. -/
def markerStr : String := "Available commands"

/-- The test `"Available commands" in line`. -/
def containsMarker (line : String) : Bool :=
  containsSub line.data markerStr.data

/-- Helper for `pythonSplitlines`: accumulate the current line (reversed). -/
def splitlinesAux : List Char → List Char → List String
  | [], [] => []
  | [], acc => [⟨acc.reverse⟩]
  | '\r' :: '\n' :: rest, acc => ⟨acc.reverse⟩ :: splitlinesAux rest []
  | '\r' :: rest, acc => ⟨acc.reverse⟩ :: splitlinesAux rest []
  | '\n' :: rest, acc => ⟨acc.reverse⟩ :: splitlinesAux rest []
  | c :: rest, acc => splitlinesAux rest (c :: acc)

/-- Python `str.splitlines()` restricted to the terminators LF, CR and CRLF:
no line for a trailing terminator, and the empty string has no lines. -/
def pythonSplitlines (s : String) : List String :=
  splitlinesAux s.data []

/-- Helper for `pySplitComma`. -/
def splitCommaAux : List Char → List Char → List String
  | [], acc => [⟨acc.reverse⟩]
  | ',' :: rest, acc => ⟨acc.reverse⟩ :: splitCommaAux rest []
  | c :: rest, acc => splitCommaAux rest (c :: acc)

/-- Python `str.split(",")` (no limit): always at least one field. -/
def pySplitComma (s : String) : List String :=
  splitCommaAux s.data []

/-- Helper for `pyReplaceChar`. -/
def replaceCharAux (c : Char) (new : List Char) : List Char → List Char
  | [] => []
  | x :: rest =>
    if x = c then new ++ replaceCharAux c new rest
    else x :: replaceCharAux c new rest

/-- Python `str.replace(old, new)` for a single-character `old`. -/
def pyReplaceChar (s : String) (c : Char) (new : String) : String :=
  ⟨replaceCharAux c new.data s.data⟩

/-- Python `" ".join(parts)`. -/
def joinSpace : List String → String
  | [] => ""
  | [s] => s
  | s :: rest => s ++ " " ++ joinSpace rest

/-- The anchored test `re.match(r"\s*{.*}", line)`: optional leading whitespace,
an opening brace, and a closing brace somewhere later on the line. -/
def matchBraceLine (line : String) : Bool :=
  match line.data.dropWhile isPySpace with
  | '{' :: rest => rest.contains '}'
  | _ => false

/-- The scan `re.search(r"{([^}]+)}", s)`: the leftmost opening brace followed by
a non-empty run of characters other than a closing brace and then a closing
brace; returns the captured run. -/
def searchBrace : List Char → Option (List Char)
  | [] => none
  | c :: rest =>
    if c = '{' then
      let content := rest.takeWhile (fun x => x != '}')
      match rest.dropWhile (fun x => x != '}') with
      | '}' :: _ => if content.isEmpty then searchBrace rest else some content
      | _ => searchBrace rest
    else searchBrace rest

/-- The line loop of `extract_subcommands`: `commands_section` starts out false;
on each line the flag is first latched if the line contains the marker phrase,
then, if the flag is set and the line matches the brace-list pattern, that line
becomes `cmd_block` and the loop breaks; `cmd_block` is initially the empty
string. -/
def findCmdBlock : List String → Bool → String
  | [], _ => ""
  | line :: rest, flag =>
    let flag' := flag || containsMarker line
    if flag' && matchBraceLine line then line else findCmdBlock rest flag'

/-- Function `extract_subcommands` from `generate_cli_command_docs.py`. -/
def extract_subcommands (help_output : String) : List String :=
  let cmd_block := findCmdBlock (pythonSplitlines help_output) false
  match searchBrace cmd_block.data with
  | none => []
  | some content => (pySplitComma ⟨content⟩).map pyStrip

theorem string_data_append (a b : String) : (a ++ b).data = a.data ++ b.data := rfl

theorem findCmdBlock_append_nomarker (L tl : List String)
    (h : ∀ l ∈ L, containsMarker l = false) :
    findCmdBlock (L ++ tl) false = findCmdBlock tl false := by
  induction L with
  | nil => rfl
  | cons a L ih =>
    have ha := h a (by simp)
    have h' : ∀ l ∈ L, containsMarker l = false := fun l hl => h l (by simp [hl])
    simp [findCmdBlock, ha, ih h']

theorem findCmdBlock_true_skip (M tl : List String)
    (h : ∀ l ∈ M, matchBraceLine l = false) :
    findCmdBlock (M ++ tl) true = findCmdBlock tl true := by
  induction M with
  | nil => rfl
  | cons a M ih =>
    have ha := h a (by simp)
    have h' : ∀ l ∈ M, matchBraceLine l = false := fun l hl => h l (by simp [hl])
    simp [findCmdBlock, ha, ih h']

theorem findCmdBlock_nobrace (L : List String) (flag : Bool)
    (h : ∀ l ∈ L, matchBraceLine l = false) :
    findCmdBlock L flag = "" := by
  induction L generalizing flag with
  | nil => rfl
  | cons a L ih =>
    have ha := h a (by simp)
    have h' : ∀ l ∈ L, matchBraceLine l = false := fun l hl => h l (by simp [hl])
    simp [findCmdBlock, ha, ih _ h']

theorem isPySpace_not_lbrace {c : Char} (h : isPySpace c = true) : ¬ c = '{' := by
  intro hc
  subst hc
  simp [isPySpace] at h

theorem takeWhile_drop_no_rbrace (l : List Char) (h : '}' ∉ l) :
    (l ++ ['}']).takeWhile (fun x => x != '}') = l ∧
      (l ++ ['}']).dropWhile (fun x => x != '}') = ['}'] := by
  induction l with
  | nil => simp
  | cons x l ih =>
    have hx : x ≠ '}' := fun hc => h (by simp [hc])
    have h' : '}' ∉ l := fun hc => h (by simp [hc])
    have hb : (x != '}') = true := by simp [hx]
    obtain ⟨h1, h2⟩ := ih h'
    constructor
    · simpa [List.takeWhile_cons, hb] using h1
    · simpa [List.dropWhile_cons, hb] using h2

theorem dropWhile_space_append (l t : List Char)
    (h : ∀ c ∈ l, isPySpace c = true) :
    (l ++ '{' :: t).dropWhile isPySpace = '{' :: t := by
  induction l with
  | nil => simp [List.dropWhile_cons, isPySpace]
  | cons c cs ih =>
    have hc : isPySpace c = true := h c (by simp)
    have h' : ∀ x ∈ cs, isPySpace x = true := fun x hx => h x (by simp [hx])
    simp [List.dropWhile_cons, hc, ih h']

theorem line_shape_data (ws body : String) :
    (ws ++ "\x7b" ++ body ++ "\x7d").data = ws.data ++ '{' :: (body.data ++ ['}']) := by
  simp [string_data_append]

theorem matchBraceLine_of_shape (ws body : String)
    (hws : ∀ c ∈ ws.data, isPySpace c = true) :
    matchBraceLine (ws ++ "\x7b" ++ body ++ "\x7d") = true := by
  rw [matchBraceLine, line_shape_data, dropWhile_space_append _ _ hws]
  simp [List.contains]

theorem searchBrace_skip (l t : List Char) (h : ∀ c ∈ l, ¬ c = '{') :
    searchBrace (l ++ t) = searchBrace t := by
  induction l with
  | nil => rfl
  | cons c cs ih =>
    have hc := h c (by simp)
    have h' : ∀ x ∈ cs, ¬ x = '{' := fun x hx => h x (by simp [hx])
    simp [searchBrace, hc, ih h']

theorem searchBrace_of_shape (ws body : String)
    (hws : ∀ c ∈ ws.data, isPySpace c = true)
    (hne : body.data ≠ []) (hnb : '}' ∉ body.data) :
    searchBrace ((ws ++ "\x7b" ++ body ++ "\x7d").data) = some body.data := by
  rw [line_shape_data]
  rw [searchBrace_skip _ _ (fun c hc => isPySpace_not_lbrace (hws c hc))]
  obtain ⟨h1, h2⟩ := takeWhile_drop_no_rbrace body.data hnb
  simp only [searchBrace, if_pos rfl, h1, h2]
  simp [List.isEmpty_iff, hne]

/-- C1: for every help-text string whose lines contain a (first) line with the
marker phrase "Available commands", and a first brace-list line (optional
leading whitespace, then a brace-enclosed comma list) at or after it,
`extract_subcommands` returns exactly the comma-split, whitespace-trimmed
contents of that brace list, in their original order. -/
theorem extract_subcommands_returns_brace_list
    (help : String) (L₁ : List String) (mline : String) (rest M L₃ : List String)
    (ws body : String)
    (hsplit : pythonSplitlines help = L₁ ++ mline :: rest)
    (hL₁ : ∀ l ∈ L₁, containsMarker l = false)
    (hm : containsMarker mline = true)
    (hdec : mline :: rest = M ++ (ws ++ "\x7b" ++ body ++ "\x7d") :: L₃)
    (hM : ∀ l ∈ M, matchBraceLine l = false)
    (hws : ∀ c ∈ ws.data, isPySpace c = true)
    (hne : body.data ≠ [])
    (hnb : '}' ∉ body.data) :
    extract_subcommands help = (pySplitComma body).map pyStrip := by
  have hbrace : matchBraceLine (ws ++ "\x7b" ++ body ++ "\x7d") = true :=
    matchBraceLine_of_shape ws body hws
  have hblock : findCmdBlock (pythonSplitlines help) false
      = ws ++ "\x7b" ++ body ++ "\x7d" := by
    rw [hsplit, findCmdBlock_append_nomarker _ _ hL₁]
    cases M with
    | nil =>
      have h1 : mline = ws ++ "\x7b" ++ body ++ "\x7d" := by
        simpa using congrArg (fun l => l.headI) hdec
      rw [h1] at hm ⊢
      simp [findCmdBlock, hm, hbrace]
    | cons m₀ M' =>
      have h1 : mline = m₀ := by
        simpa using congrArg (fun l => l.headI) hdec
      have h2 : rest = M' ++ (ws ++ "\x7b" ++ body ++ "\x7d") :: L₃ := by
        simpa using congrArg List.tail hdec
      have hm₀ : matchBraceLine m₀ = false := hM m₀ (by simp)
      have hM' : ∀ l ∈ M', matchBraceLine l = false := fun l hl => hM l (by simp [hl])
      subst h1 h2
      simp [findCmdBlock, hm, hm₀, findCmdBlock_true_skip _ _ hM', hbrace]
  rw [extract_subcommands]
  simp only [hblock]
  rw [searchBrace_of_shape ws body hws hne hnb]

/-- C1 witness: the spec example, with one extra leading line and one trailing
line, yields the three subcommands of the brace list. -/
theorem extract_subcommands_returns_brace_list_witness :
    extract_subcommands "usage: mytool\n\nAvailable commands:\n  \x7bbuild, test, clean\x7d\nrest"
      = (pySplitComma "build, test, clean").map pyStrip :=
  extract_subcommands_returns_brace_list
    "usage: mytool\n\nAvailable commands:\n  \x7bbuild, test, clean\x7d\nrest"
    ["usage: mytool", ""] "Available commands:"
    ["  \x7bbuild, test, clean\x7d", "rest"] ["Available commands:"] ["rest"]
    "  " "build, test, clean"
    (by decide) (by decide) (by decide) (by decide) (by decide) (by decide)
    (by decide) (by decide)

/-- C5 counterexample: the single-line help text whose marker line is itself a
brace-list line.  It contains the marker phrase and is followed by no line at
all (so by no brace-list line), yet `extract_subcommands` returns a non-empty
list: the claim as stated is false on the code. -/
theorem extract_subcommands_marker_line_counterexample :
    pythonSplitlines "\x7bAvailable commands\x7d" = ["\x7bAvailable commands\x7d"]
      ∧ containsMarker "\x7bAvailable commands\x7d" = true
      ∧ extract_subcommands "\x7bAvailable commands\x7d" = ["Available commands"] := by
  refine ⟨by decide, by decide, by decide⟩

/-- C5 (amended): for every help-text string with no line containing the marker
phrase "Available commands", or whose first marker line has no brace-list line
at or after it (the marker line itself included), `extract_subcommands` returns
the empty list. -/
theorem extract_subcommands_empty_cases
    (help : String)
    (h : (∀ l ∈ pythonSplitlines help, containsMarker l = false) ∨
         (∃ L₁ mline rest, pythonSplitlines help = L₁ ++ mline :: rest ∧
            (∀ l ∈ L₁, containsMarker l = false) ∧ containsMarker mline = true ∧
            (∀ l ∈ mline :: rest, matchBraceLine l = false))) :
    extract_subcommands help = [] := by
  have hblock : findCmdBlock (pythonSplitlines help) false = "" := by
    rcases h with h | ⟨L₁, mline, rest, hsplit, hL₁, _, hnb⟩
    · have : findCmdBlock (pythonSplitlines help ++ []) false = findCmdBlock [] false :=
        findCmdBlock_append_nomarker _ [] h
      simpa using this
    · rw [hsplit, findCmdBlock_append_nomarker _ _ hL₁]
      exact findCmdBlock_nobrace _ _ hnb
  rw [extract_subcommands]
  simp [hblock, searchBrace]

/-- C5 witness: a help text whose marker line is followed by no brace-list line
yields no subcommands. -/
theorem extract_subcommands_empty_cases_witness :
    extract_subcommands "Available commands: none\nstill none" = [] :=
  extract_subcommands_empty_cases "Available commands: none\nstill none"
    (Or.inr ⟨[], "Available commands: none", ["still none"],
      by decide, by decide, by decide, by decide⟩)

/-! CLI-doc generator (`generate_cli_command_docs.py`): runtime model.
An external invocation (`subprocess.run` with `check=True`) either succeeds
with captured stdout, fails with a non-zero exit carrying captured stderr
(raising `CalledProcessError`), or fails to launch at all (raising an
`OSError`-style exception, e.g. the binary does not exist). -/
inductive ProcResult where
  | ok (stdout : String)
  | cpe (stderr : String)
  | os
deriving DecidableEq

/-- Function `run_help` from `generate_cli_command_docs.py`: a non-zero exit is caught
and turned into an error page body; any other exception propagates (`none`). -/
def run_help (oracle : List String → ProcResult) (cmd : List String) : Option String :=
  match oracle cmd with
  | ProcResult.ok out => some (pyStrip out)
  | ProcResult.cpe stderr =>
      some ("[ERROR] Failed to run " ++ joinSpace cmd ++ ":\n" ++ pyStrip stderr)
  | ProcResult.os => none

/-- The help text `run_help` yields when it does not propagate an exception. -/
def runHelpD (oracle : List String → ProcResult) (cmd : List String) : String :=
  (run_help oracle cmd).getD ""

/-- The Markdown body built by `write_markdown`. -/
def mdRender (title content : String) : String :=
  "# " ++ title ++ "\n\n```" ++ content ++ "```"

/-- Python `x or default` for an optional string argument (an empty string is
falsy and also falls back to the default). -/
def pyOr (x : Option String) (d : String) : String :=
  match x with
  | none => d
  | some s => if s = "" then d else s

/-- Observable events of one CLI-doc generator run: an external invocation, a
file write of rendered Markdown, or a dry-run print of the same rendered
Markdown in place of the write. -/
inductive CEvent where
  | call (cmd : List String)
  | write (path md : String)
  | dryPrint (path md : String)
deriving DecidableEq

/-- Function `write_markdown`: the rendered body is computed before the mode split; the
mode only selects printing over writing. -/
def emitPage (dry : Bool) (path md : String) : CEvent :=
  if dry then CEvent.dryPrint path md else CEvent.write path md

/-- The subcommand loop of `main`: one invocation and one page per discovered
subcommand; a propagating exception ends the run (second component false). -/
def cliSubLoopR (oracle : List String → ProcResult) (tool top_name : String)
    (dry : Bool) : List String → List CEvent × Bool
  | [] => ([], true)
  | sub :: rest =>
    match run_help oracle [tool, sub, "-h"] with
    | none => ([CEvent.call [tool, sub, "-h"]], false)
    | some h =>
      let p := cliSubLoopR oracle tool top_name dry rest
      (CEvent.call [tool, sub, "-h"] ::
        emitPage dry (top_name ++ "_" ++ sub ++ ".md") (mdRender (tool ++ " " ++ sub) h)
          :: p.1, p.2)

/-- Function `main` of `generate_cli_command_docs.py` as a trace of events plus a flag
recording whether the run completed without a propagating exception. -/
def cliRun (oracle : List String → ProcResult) (command : String)
    (nameArg titleArg : Option String) (dry : Bool) : List CEvent × Bool :=
  let tool := command
  let top_name := pyOr nameArg tool
  let title := pyOr titleArg (tool ++ " CLI")
  match run_help oracle [tool, "-h"] with
  | none => ([CEvent.call [tool, "-h"]], false)
  | some top_help =>
    let p := cliSubLoopR oracle tool top_name dry (extract_subcommands top_help)
    (CEvent.call [tool, "-h"] ::
      emitPage dry (top_name ++ ".md") (mdRender title top_help) :: p.1, p.2)

/-- Pages appearing in a trace, written or dry-printed. -/
def pageOfEvent : CEvent → Option (String × String)
  | CEvent.write p m => some (p, m)
  | CEvent.dryPrint p m => some (p, m)
  | _ => none

def pagesOf (evs : List CEvent) : List (String × String) :=
  evs.filterMap pageOfEvent

/-- Pages actually written to disk. -/
def writePagesOf (evs : List CEvent) : List (String × String) :=
  evs.filterMap fun e =>
    match e with
    | CEvent.write p m => some (p, m)
    | _ => none

/-- Pages only printed in dry-run mode. -/
def dryPagesOf (evs : List CEvent) : List (String × String) :=
  evs.filterMap fun e =>
    match e with
    | CEvent.dryPrint p m => some (p, m)
    | _ => none

/-- External invocations appearing in a trace. -/
def callsOf (evs : List CEvent) : List (List String) :=
  evs.filterMap fun e =>
    match e with
    | CEvent.call c => some c
    | _ => none

theorem run_help_of_not_os (oracle : List String → ProcResult) (cmd : List String)
    (h : oracle cmd ≠ ProcResult.os) :
    run_help oracle cmd = some (runHelpD oracle cmd) := by
  unfold runHelpD run_help
  cases hc : oracle cmd with
  | ok out => rfl
  | cpe stderr => rfl
  | os => exact absurd hc h

theorem pageOfEvent_emitPage (dry : Bool) (p m : String) :
    pageOfEvent (emitPage dry p m) = some (p, m) := by
  cases dry <;> rfl

/-- The page produced for one subcommand. -/
def subPageOf (oracle : List String → ProcResult) (tool top_name sub : String) :
    String × String :=
  (top_name ++ "_" ++ sub ++ ".md",
    mdRender (tool ++ " " ++ sub) (runHelpD oracle [tool, sub, "-h"]))

theorem pagesOf_cons_call (c : List String) (evs : List CEvent) :
    pagesOf (CEvent.call c :: evs) = pagesOf evs := by
  simp [pagesOf, pageOfEvent]

theorem pagesOf_cons_emit (dry : Bool) (p m : String) (evs : List CEvent) :
    pagesOf (emitPage dry p m :: evs) = (p, m) :: pagesOf evs := by
  cases dry <;> simp [pagesOf, emitPage, pageOfEvent]

theorem cliSubLoopR_ok (oracle : List String → ProcResult)
    (tool top_name : String) (dry : Bool) (subs : List String)
    (h : ∀ s ∈ subs, oracle [tool, s, "-h"] ≠ ProcResult.os) :
    pagesOf (cliSubLoopR oracle tool top_name dry subs).1
        = subs.map (subPageOf oracle tool top_name)
      ∧ (cliSubLoopR oracle tool top_name dry subs).2 = true := by
  induction subs with
  | nil => exact ⟨rfl, rfl⟩
  | cons a subs ih =>
    have ha := run_help_of_not_os oracle [tool, a, "-h"] (h a (by simp))
    have h' : ∀ s ∈ subs, oracle [tool, s, "-h"] ≠ ProcResult.os :=
      fun s hs => h s (by simp [hs])
    obtain ⟨ih1, ih2⟩ := ih h'
    constructor
    · simp only [cliSubLoopR, ha]
      rw [pagesOf_cons_call, pagesOf_cons_emit, ih1]
      simp [subPageOf]
    · simp only [cliSubLoopR, ha]
      exact ih2

/-- C2: in the CLI-doc generator, when no invocation fails to launch (so the
only failures are non-zero exits), the run completes, produces one page for the
top-level command and one per discovered subcommand, and any invocation that
exited non-zero has its error text embedded as the page content. -/
theorem cli_docs_soft_failure_produces_all_pages
    (oracle : List String → ProcResult) (command : String)
    (nameArg titleArg : Option String) (dry : Bool)
    (h1 : oracle [command, "-h"] ≠ ProcResult.os)
    (h2 : ∀ sub ∈ extract_subcommands (runHelpD oracle [command, "-h"]),
            oracle [command, sub, "-h"] ≠ ProcResult.os) :
    (cliRun oracle command nameArg titleArg dry).2 = true
      ∧ pagesOf (cliRun oracle command nameArg titleArg dry).1
          = (pyOr nameArg command ++ ".md",
              mdRender (pyOr titleArg (command ++ " CLI"))
                (runHelpD oracle [command, "-h"]))
            :: (extract_subcommands (runHelpD oracle [command, "-h"])).map
                 (subPageOf oracle command (pyOr nameArg command))
      ∧ ∀ cmd stderr, oracle cmd = ProcResult.cpe stderr →
          runHelpD oracle cmd
            = "[ERROR] Failed to run " ++ joinSpace cmd ++ ":\n" ++ pyStrip stderr := by
  have htop := run_help_of_not_os oracle [command, "-h"] h1
  obtain ⟨hs1, hs2⟩ := cliSubLoopR_ok oracle command (pyOr nameArg command) dry
    (extract_subcommands (runHelpD oracle [command, "-h"])) h2
  refine ⟨?_, ?_, ?_⟩
  · simp [cliRun, htop, hs2]
  · simp only [cliRun, htop]
    rw [pagesOf_cons_call, pagesOf_cons_emit, hs1]
  · intro cmd stderr hc
    simp [runHelpD, run_help, hc]

/-- C2 witness oracle: the top-level help succeeds and lists two subcommands;
one subcommand help succeeds, the other exits non-zero. -/
def oracleCliEx : List String → ProcResult := fun cmd =>
  if cmd = ["mytool", "-h"] then
    ProcResult.ok "usage: mytool\n\nAvailable commands:\n  \x7bbuild, test\x7d"
  else if cmd = ["mytool", "build", "-h"] then ProcResult.ok "build help"
  else if cmd = ["mytool", "test", "-h"] then ProcResult.cpe "boom"
  else ProcResult.os

/-- C2 witness: with one non-zero-exit subcommand the run still completes. -/
theorem cli_docs_soft_failure_produces_all_pages_witness :
    (cliRun oracleCliEx "mytool" none none false).2 = true :=
  (cli_docs_soft_failure_produces_all_pages oracleCliEx "mytool" none none false
    (by decide) (by decide)).1

theorem cliSubLoopR_abort (oracle : List String → ProcResult)
    (tool top_name : String) (dry : Bool) (pre post : List String) (bad : String)
    (hpre : ∀ s ∈ pre, oracle [tool, s, "-h"] ≠ ProcResult.os)
    (hbad : oracle [tool, bad, "-h"] = ProcResult.os) :
    pagesOf (cliSubLoopR oracle tool top_name dry (pre ++ bad :: post)).1
        = pre.map (subPageOf oracle tool top_name)
      ∧ (cliSubLoopR oracle tool top_name dry (pre ++ bad :: post)).2 = false := by
  induction pre with
  | nil =>
    have hb : run_help oracle [tool, bad, "-h"] = none := by
      simp [run_help, hbad]
    constructor
    · simp only [List.nil_append, cliSubLoopR, hb]
      rfl
    · simp only [List.nil_append, cliSubLoopR, hb]
  | cons a pre ih =>
    have ha := run_help_of_not_os oracle [tool, a, "-h"] (hpre a (by simp))
    have h' : ∀ s ∈ pre, oracle [tool, s, "-h"] ≠ ProcResult.os :=
      fun s hs => hpre s (by simp [hs])
    obtain ⟨ih1, ih2⟩ := ih h'
    constructor
    · simp only [List.cons_append, cliSubLoopR, ha]
      rw [pagesOf_cons_call, pagesOf_cons_emit]
      simp only [List.append_eq]
      rw [ih1]
      simp [subPageOf]
    · simp only [List.cons_append, cliSubLoopR, ha, List.append_eq]
      exact ih2

/-- C8: `run_help` catches only non-zero-exit failures; when launching the
external tool itself raises (the command binary does not exist), the exception
propagates: the run aborts (completion flag false) and only the pages before
the failing invocation exist — none for the failing subcommand or any later
one.  When the top-level invocation itself fails to launch, no page at all is
produced. -/
theorem run_help_oserror_propagates
    (oracle : List String → ProcResult) (command : String)
    (nameArg titleArg : Option String) (dry : Bool)
    (pre post : List String) (bad : String)
    (h1 : oracle [command, "-h"] ≠ ProcResult.os)
    (hsubs : extract_subcommands (runHelpD oracle [command, "-h"]) = pre ++ bad :: post)
    (hpre : ∀ s ∈ pre, oracle [command, s, "-h"] ≠ ProcResult.os)
    (hbad : oracle [command, bad, "-h"] = ProcResult.os) :
    (∀ cmd, oracle cmd = ProcResult.os → run_help oracle cmd = none)
      ∧ (cliRun oracle command nameArg titleArg dry).2 = false
      ∧ pagesOf (cliRun oracle command nameArg titleArg dry).1
          = (pyOr nameArg command ++ ".md",
              mdRender (pyOr titleArg (command ++ " CLI"))
                (runHelpD oracle [command, "-h"]))
            :: pre.map (subPageOf oracle command (pyOr nameArg command))
      ∧ (∀ oracle' : List String → ProcResult,
          oracle' [command, "-h"] = ProcResult.os →
          cliRun oracle' command nameArg titleArg dry
            = ([CEvent.call [command, "-h"]], false)) := by
  have htop := run_help_of_not_os oracle [command, "-h"] h1
  obtain ⟨ha1, ha2⟩ := cliSubLoopR_abort oracle command (pyOr nameArg command) dry
    pre post bad hpre hbad
  refine ⟨?_, ?_, ?_, ?_⟩
  · intro cmd hc
    simp [run_help, hc]
  · simp only [cliRun, htop]
    rw [← hsubs] at ha2
    exact ha2
  · simp only [cliRun, htop]
    rw [pagesOf_cons_call, pagesOf_cons_emit]
    rw [← hsubs] at ha1
    rw [ha1]
  · intro oracle' h'
    simp [cliRun, run_help, h']

/-- C8 witness oracle: the second discovered subcommand's help invocation fails
to launch. -/
def oracleCliOsEx : List String → ProcResult := fun cmd =>
  if cmd = ["mytool", "-h"] then
    ProcResult.ok "usage: mytool\n\nAvailable commands:\n  \x7bbuild, test\x7d"
  else if cmd = ["mytool", "build", "-h"] then ProcResult.ok "build help"
  else ProcResult.os

/-- C8 witness: the run aborts when a subcommand invocation fails to launch. -/
theorem run_help_oserror_propagates_witness :
    (cliRun oracleCliOsEx "mytool" none none false).2 = false :=
  (run_help_oserror_propagates oracleCliOsEx "mytool" none none false
    ["build"] [] "test" (by decide) (by decide) (by decide) (by decide)).2.1

/-! Launch-doc generator (`generate_launch_docs.py`): runtime model.  A launch
file is identified by the path-derived attributes the script uses; path
arithmetic itself is a direct library call and is modelled as data. -/
structure LaunchFile where
  path : String
  name : String
  stem : String
  rel : String
deriving DecidableEq

/-- The external invocation issued per launch file. -/
def ros2Cmd (lf : LaunchFile) : List String :=
  ["ros2", "launch", lf.path, "--show-args"]

/-- The `output` value after the per-file try/except: stdout stripped on
success, the embedded error text on a non-zero exit (stderr not stripped), and
`none` (a propagating exception) otherwise. -/
def launchOutput (lf : LaunchFile) : ProcResult → Option String
  | ProcResult.ok out => some (pyStrip out)
  | ProcResult.cpe stderr =>
      some ("[ERROR] Failed to show args for `" ++ lf.path ++ "`:\n" ++ stderr)
  | ProcResult.os => none

/-- The Markdown body written for one launch file. -/
def launchContent (lf : LaunchFile) (output : String) : String :=
  "# `" ++ lf.name ++ "`\n\n**Path**: `" ++ lf.rel ++ "`\n\n```\n" ++ output ++ "\n```"

/-- Observable events of one launch-doc generator run. -/
inductive LEvent where
  | mkdir
  | call (cmd : List String)
  | write (filename content : String)
  | dryPrint (filename : String)
deriving DecidableEq

/-- Exit behaviour of a run: a process exit code, or a propagating exception. -/
inductive LExit where
  | code (n : Nat)
  | raised
deriving DecidableEq

/-- The per-file loop of `main`: invoke the external query, then either write
the page or (dry-run) print only the intended filename. -/
def launchLoop (oracle : List String → ProcResult) (dry : Bool) :
    List LaunchFile → List LEvent × Bool
  | [] => ([], true)
  | lf :: rest =>
    match launchOutput lf (oracle (ros2Cmd lf)) with
    | none => ([LEvent.call (ros2Cmd lf)], false)
    | some output =>
      let ev := if dry then LEvent.dryPrint (lf.stem ++ ".md")
                else LEvent.write (lf.stem ++ ".md") (launchContent lf output)
      let p := launchLoop oracle dry rest
      (LEvent.call (ros2Cmd lf) :: ev :: p.1, p.2)

/-- Function `main` of `generate_launch_docs.py`: in non-dry-run mode the output
directory is created first; then the package source directory is validated
(`sys.exit(1)` when missing); then the per-file loop runs and the script ends
with exit code 0 unless an exception propagated. -/
def launchRun (srcExists : Bool) (files : List LaunchFile)
    (oracle : List String → ProcResult) (dry : Bool) : List LEvent × LExit :=
  let pre := if dry then ([] : List LEvent) else [LEvent.mkdir]
  if srcExists = false then (pre, LExit.code 1)
  else
    let p := launchLoop oracle dry files
    (pre ++ p.1, if p.2 then LExit.code 0 else LExit.raised)

/-- Files written during a launch-doc run. -/
def lwritesOf (evs : List LEvent) : List (String × String) :=
  evs.filterMap fun e =>
    match e with
    | LEvent.write f c => some (f, c)
    | _ => none

/-- Dry-run print lines of a launch-doc run (intended filenames). -/
def ldryPrintsOf (evs : List LEvent) : List String :=
  evs.filterMap fun e =>
    match e with
    | LEvent.dryPrint f => some f
    | _ => none

/-- External invocations of a launch-doc run. -/
def lcallsOf (evs : List LEvent) : List (List String) :=
  evs.filterMap fun e =>
    match e with
    | LEvent.call c => some c
    | _ => none

theorem launchLoop_completes (oracle : List String → ProcResult) (dry : Bool)
    (files : List LaunchFile)
    (h : ∀ f ∈ files, oracle (ros2Cmd f) ≠ ProcResult.os) :
    (launchLoop oracle dry files).2 = true := by
  induction files with
  | nil => rfl
  | cons lf rest ih =>
    have hlf : oracle (ros2Cmd lf) ≠ ProcResult.os := h lf (by simp)
    have h' : ∀ f ∈ rest, oracle (ros2Cmd f) ≠ ProcResult.os :=
      fun f hf => h f (by simp [hf])
    cases hc : oracle (ros2Cmd lf) with
    | ok out => simp only [launchLoop, hc, launchOutput]; exact ih h'
    | cpe stderr => simp only [launchLoop, hc, launchOutput]; exact ih h'
    | os => exact absurd hc hlf

/-- C3: when the package source directory `<workspace>/src/<package-name>` does
not exist, the launch-doc generator exits with status 1 and writes no file; when
it exists and no external invocation fails to launch, the run ends with exit
status 0 even when per-file invocations exit non-zero. -/
theorem launch_docs_validation_and_exit_codes
    (files : List LaunchFile) (oracle : List String → ProcResult) (dry : Bool) :
    (launchRun false files oracle dry).2 = LExit.code 1
      ∧ lwritesOf (launchRun false files oracle dry).1 = []
      ∧ ((∀ f ∈ files, oracle (ros2Cmd f) ≠ ProcResult.os) →
          (launchRun true files oracle dry).2 = LExit.code 0) := by
  refine ⟨rfl, ?_, ?_⟩
  · cases dry <;> rfl
  · intro h
    simp only [launchRun, launchLoop_completes oracle dry files h]
    rfl

/-- C3 witness launch file and oracle: the single launch file's query exits
non-zero, yet the run ends with exit code 0; with the source directory missing
the exit code is 1. -/
def lfEx : LaunchFile :=
  { path := "ws/src/pkg/launch/demo.launch.py"
    name := "demo.launch.py"
    stem := "demo.launch"
    rel := "src/pkg/launch/demo.launch.py" }

def oracleLaunchEx : List String → ProcResult := fun cmd =>
  if cmd = ros2Cmd lfEx then ProcResult.cpe "boom" else ProcResult.os

/-- C3 witness. -/
theorem launch_docs_validation_and_exit_codes_witness :
    (launchRun true [lfEx] oracleLaunchEx false).2 = LExit.code 0
      ∧ (launchRun false [lfEx] oracleLaunchEx false).2 = LExit.code 1 :=
  ⟨(launch_docs_validation_and_exit_codes [lfEx] oracleLaunchEx false).2.2 (by decide),
   (launch_docs_validation_and_exit_codes [lfEx] oracleLaunchEx false).1⟩

/-- C9: in non-dry-run mode the output docs directory is created before the
package source directory is validated: on the validation-failure path the whole
trace is exactly the directory creation, followed by exit status 1. -/
theorem launch_docs_mkdir_before_validation
    (files : List LaunchFile) (oracle : List String → ProcResult) :
    launchRun false files oracle false = ([LEvent.mkdir], LExit.code 1) := rfl

theorem cliSubLoopR_calls_mode (oracle : List String → ProcResult)
    (tool top_name : String) (subs : List String) :
    callsOf (cliSubLoopR oracle tool top_name true subs).1
      = callsOf (cliSubLoopR oracle tool top_name false subs).1 := by
  induction subs with
  | nil => rfl
  | cons a subs ih =>
    cases hc : run_help oracle [tool, a, "-h"] with
    | none => simp only [cliSubLoopR, hc]
    | some h =>
      simp only [cliSubLoopR, hc]
      simp [callsOf, emitPage] at ih ⊢
      exact ih

theorem cliSubLoopR_dry_eq_real (oracle : List String → ProcResult)
    (tool top_name : String) (subs : List String) :
    dryPagesOf (cliSubLoopR oracle tool top_name true subs).1
      = writePagesOf (cliSubLoopR oracle tool top_name false subs).1 := by
  induction subs with
  | nil => rfl
  | cons a subs ih =>
    cases hc : run_help oracle [tool, a, "-h"] with
    | none => simp only [cliSubLoopR, hc]; rfl
    | some h =>
      simp only [cliSubLoopR, hc]
      simp [dryPagesOf, writePagesOf, emitPage] at ih ⊢
      exact ih

theorem cliSubLoopR_no_cross_mode (oracle : List String → ProcResult)
    (tool top_name : String) (subs : List String) :
    writePagesOf (cliSubLoopR oracle tool top_name true subs).1 = []
      ∧ dryPagesOf (cliSubLoopR oracle tool top_name false subs).1 = [] := by
  induction subs with
  | nil => exact ⟨rfl, rfl⟩
  | cons a subs ih =>
    cases hc : run_help oracle [tool, a, "-h"] with
    | none => simp only [cliSubLoopR, hc]; exact ⟨rfl, rfl⟩
    | some h =>
      simp only [cliSubLoopR, hc]
      obtain ⟨ih1, ih2⟩ := ih
      constructor
      · simpa [writePagesOf, emitPage] using ih1
      · simpa [dryPagesOf, emitPage] using ih2

/-- The pages a launch-doc run determines from the oracle alone, independently
of the mode: one per launch file until a propagating failure, each pairing the
intended filename with the body the real-write branch assembles. -/
def launchPages (oracle : List String → ProcResult) :
    List LaunchFile → List (String × String)
  | [] => []
  | lf :: rest =>
    match launchOutput lf (oracle (ros2Cmd lf)) with
    | none => []
    | some output =>
      (lf.stem ++ ".md", launchContent lf output) :: launchPages oracle rest

theorem launchLoop_calls_mode (oracle : List String → ProcResult)
    (files : List LaunchFile) :
    lcallsOf (launchLoop oracle true files).1
      = lcallsOf (launchLoop oracle false files).1 := by
  induction files with
  | nil => rfl
  | cons lf rest ih =>
    cases hc : launchOutput lf (oracle (ros2Cmd lf)) with
    | none => simp only [launchLoop, hc]
    | some output =>
      simp only [launchLoop, hc]
      simp [lcallsOf] at ih ⊢
      exact ih

theorem launchLoop_writes_real (oracle : List String → ProcResult)
    (files : List LaunchFile) :
    lwritesOf (launchLoop oracle false files).1 = launchPages oracle files := by
  induction files with
  | nil => rfl
  | cons lf rest ih =>
    cases hc : launchOutput lf (oracle (ros2Cmd lf)) with
    | none => simp only [launchLoop, hc, launchPages]; rfl
    | some output =>
      simp only [launchLoop, hc, launchPages]
      simp [lwritesOf] at ih ⊢
      exact ih

theorem launchLoop_dry_filenames (oracle : List String → ProcResult)
    (files : List LaunchFile) :
    ldryPrintsOf (launchLoop oracle true files).1
      = (launchPages oracle files).map Prod.fst := by
  induction files with
  | nil => rfl
  | cons lf rest ih =>
    cases hc : launchOutput lf (oracle (ros2Cmd lf)) with
    | none => simp only [launchLoop, hc, launchPages]; rfl
    | some output =>
      simp only [launchLoop, hc, launchPages]
      simp [ldryPrintsOf] at ih ⊢
      exact ih

theorem launchLoop_no_cross_mode (oracle : List String → ProcResult)
    (files : List LaunchFile) :
    lwritesOf (launchLoop oracle true files).1 = []
      ∧ ldryPrintsOf (launchLoop oracle false files).1 = [] := by
  induction files with
  | nil => exact ⟨rfl, rfl⟩
  | cons lf rest ih =>
    cases hc : launchOutput lf (oracle (ros2Cmd lf)) with
    | none => simp only [launchLoop, hc]; exact ⟨rfl, rfl⟩
    | some output =>
      simp only [launchLoop, hc]
      obtain ⟨ih1, ih2⟩ := ih
      constructor
      · simpa [lwritesOf] using ih1
      · simpa [ldryPrintsOf] using ih2

/-- C4: for the same inputs and the same external-tool outcomes, dry-run and
real-run modes issue identical external invocations, and determine textually
identical page content: in the CLI-doc generator the pages dry-printed in
dry-run mode are exactly the pages written in real-run mode; in the launch-doc
generator the files written in real-run mode are exactly the mode-independent
pages `launchPages`, whose filenames are exactly what dry-run mode prints.
Neither mode performs the other mode's output action. -/
theorem dry_run_real_run_equivalence
    (oracle : List String → ProcResult) (command : String)
    (nameArg titleArg : Option String)
    (files : List LaunchFile) (srcExists : Bool) :
    callsOf (cliRun oracle command nameArg titleArg true).1
        = callsOf (cliRun oracle command nameArg titleArg false).1
      ∧ dryPagesOf (cliRun oracle command nameArg titleArg true).1
          = writePagesOf (cliRun oracle command nameArg titleArg false).1
      ∧ writePagesOf (cliRun oracle command nameArg titleArg true).1 = []
      ∧ dryPagesOf (cliRun oracle command nameArg titleArg false).1 = []
      ∧ lcallsOf (launchRun srcExists files oracle true).1
          = lcallsOf (launchRun srcExists files oracle false).1
      ∧ lwritesOf (launchRun true files oracle false).1 = launchPages oracle files
      ∧ ldryPrintsOf (launchRun true files oracle true).1
          = (launchPages oracle files).map Prod.fst
      ∧ lwritesOf (launchRun srcExists files oracle true).1 = []
      ∧ ldryPrintsOf (launchRun srcExists files oracle false).1 = [] := by
  obtain ⟨hnc1, hnc2⟩ := cliSubLoopR_no_cross_mode oracle command (pyOr nameArg command)
    (extract_subcommands ((run_help oracle [command, "-h"]).getD ""))
  obtain ⟨hlc1, hlc2⟩ := launchLoop_no_cross_mode oracle files
  refine ⟨?_, ?_, ?_, ?_, ?_, ?_, ?_, ?_, ?_⟩
  · cases hc : run_help oracle [command, "-h"] with
    | none => simp only [cliRun, hc]
    | some top_help =>
      simp only [cliRun, hc]
      have := cliSubLoopR_calls_mode oracle command (pyOr nameArg command)
        (extract_subcommands top_help)
      simpa [callsOf, emitPage] using this
  · cases hc : run_help oracle [command, "-h"] with
    | none => simp only [cliRun, hc]; rfl
    | some top_help =>
      simp only [cliRun, hc]
      have := cliSubLoopR_dry_eq_real oracle command (pyOr nameArg command)
        (extract_subcommands top_help)
      simpa [dryPagesOf, writePagesOf, emitPage] using this
  · cases hc : run_help oracle [command, "-h"] with
    | none => simp only [cliRun, hc]; rfl
    | some top_help =>
      simp only [cliRun, hc]
      have := (cliSubLoopR_no_cross_mode oracle command (pyOr nameArg command)
        (extract_subcommands top_help)).1
      simpa [writePagesOf, emitPage] using this
  · cases hc : run_help oracle [command, "-h"] with
    | none => simp only [cliRun, hc]; rfl
    | some top_help =>
      simp only [cliRun, hc]
      have := (cliSubLoopR_no_cross_mode oracle command (pyOr nameArg command)
        (extract_subcommands top_help)).2
      simpa [dryPagesOf, emitPage] using this
  · cases srcExists with
    | false => rfl
    | true =>
      simp only [launchRun]
      have := launchLoop_calls_mode oracle files
      simpa [lcallsOf] using this
  · simp only [launchRun]
    have := launchLoop_writes_real oracle files
    simpa [lwritesOf] using this
  · simp only [launchRun]
    have := launchLoop_dry_filenames oracle files
    simpa [ldryPrintsOf] using this
  · cases srcExists with
    | false => rfl
    | true =>
      simp only [launchRun]
      simpa [lwritesOf] using hlc1
  · cases srcExists with
    | false => rfl
    | true =>
      simp only [launchRun]
      simpa [ldryPrintsOf] using hlc2

/-! Template renderer (`generate_template_md.py`): dependency-manifest parsing.
A YAML document is modelled as a tree of values whose mappings preserve
insertion order (as Python dicts do). -/
inductive Yaml where
  | null
  | str (s : String)
  | seq (items : List Yaml)
  | map (entries : List (String × Yaml))

/-- Python `dict.get(key, default)` on an insertion-ordered mapping. -/
def yamlGet (entries : List (String × Yaml)) (k : String) (d : Yaml) : Yaml :=
  match entries with
  | [] => d
  | (k', v) :: rest => if k' = k then v else yamlGet rest k d

/-- One dependency record assembled by `extract_dependencies`. -/
structure Dep where
  name : String
  url : Yaml
  version : Yaml

/-- Function `extract_dependencies` from `generate_template_md.py`.  The filesystem is a
map from candidate filename to `none` (file absent), a parse failure (the
exception is caught and the loop moves on), or the parsed document.  A document
whose top level is not a mapping, or whose `repositories` value is not a
mapping, raises inside the `try` and is likewise skipped; entries whose value
is not a mapping are filtered out. -/
def extract_dependencies (fs : String → Option (Except Unit Yaml)) :
    List String → List Dep
  | [] => []
  | f :: rest =>
    match fs f with
    | none => extract_dependencies fs rest
    | some (Except.error _) => extract_dependencies fs rest
    | some (Except.ok data) =>
      match data with
      | Yaml.map entries =>
        match yamlGet entries "repositories" (Yaml.map []) with
        | Yaml.map repos =>
          repos.filterMap fun p =>
            match p.2 with
            | Yaml.map info =>
              some { name := p.1
                     url := yamlGet info "url" (Yaml.str "")
                     version := yamlGet info "version" (Yaml.str "") }
            | _ => none
        | _ => extract_dependencies fs rest
      | _ => extract_dependencies fs rest

/-- C6: `extract_dependencies` parses the first existing file among the ordered
candidate filenames; when that file's top-level `repositories` mapping has N
entries, each holding a record, it returns N records in order, keeping each
mapping key as the name and defaulting a missing `url` or `version` to the
empty string; and when no candidate file exists it returns the empty list. -/
theorem extract_dependencies_first_manifest
    (fs : String → Option (Except Unit Yaml)) (pre post : List String) (f : String)
    (entries : List (String × Yaml)) (raw : List (String × List (String × Yaml)))
    (hpre : ∀ g ∈ pre, fs g = none)
    (hf : fs f = some (Except.ok (Yaml.map entries)))
    (hrepos : yamlGet entries "repositories" (Yaml.map [])
        = Yaml.map (raw.map fun q => (q.1, Yaml.map q.2))) :
    extract_dependencies fs (pre ++ f :: post)
        = raw.map (fun q =>
            { name := q.1
              url := yamlGet q.2 "url" (Yaml.str "")
              version := yamlGet q.2 "version" (Yaml.str "") })
      ∧ (extract_dependencies fs (pre ++ f :: post)).map Dep.name = raw.map Prod.fst
      ∧ (extract_dependencies fs (pre ++ f :: post)).length = raw.length
      ∧ (∀ info : List (String × Yaml), (∀ p ∈ info, ¬ p.1 = "url") →
          yamlGet info "url" (Yaml.str "") = Yaml.str "")
      ∧ (∀ fs' : String → Option (Except Unit Yaml), ∀ cand : List String,
          (∀ g ∈ cand, fs' g = none) → extract_dependencies fs' cand = []) := by
  have hmain : extract_dependencies fs (pre ++ f :: post)
      = raw.map (fun q =>
          { name := q.1
            url := yamlGet q.2 "url" (Yaml.str "")
            version := yamlGet q.2 "version" (Yaml.str "") }) := by
    have hskip : extract_dependencies fs (pre ++ f :: post)
        = extract_dependencies fs (f :: post) := by
      induction pre with
      | nil => rfl
      | cons g pre ih =>
        have hg := hpre g (by simp)
        have h' : ∀ x ∈ pre, fs x = none := fun x hx => hpre x (by simp [hx])
        simp only [List.cons_append, extract_dependencies, hg]
        exact ih h'
    rw [hskip]
    simp only [extract_dependencies, hf, hrepos]
    clear hrepos hf hpre hskip
    induction raw with
    | nil => rfl
    | cons q raw ih =>
      simpa [List.filterMap_cons] using ih
  refine ⟨hmain, ?_, ?_, ?_, ?_⟩
  · rw [hmain]
    simp
  · rw [hmain]
    simp
  · intro info hinfo
    induction info with
    | nil => rfl
    | cons p info ih =>
      have hp := hinfo p (by simp)
      have h' : ∀ x ∈ info, ¬ x.1 = "url" := fun x hx => hinfo x (by simp [hx])
      cases p with
      | mk k v =>
        simp only [yamlGet, if_neg (by simpa using hp)]
        exact ih h'
  · intro fs' cand hnone
    induction cand with
    | nil => rfl
    | cons g cand ih =>
      have hg := hnone g (by simp)
      have h' : ∀ x ∈ cand, fs' x = none := fun x hx => hnone x (by simp [hx])
      simp only [extract_dependencies, hg]
      exact ih h'

/-- C6 witness manifest: two repositories, the second with no `version` key. -/
def rawDepsEx : List (String × List (String × Yaml)) :=
  [("repo_a", [("url", Yaml.str "https://example.org/a"), ("version", Yaml.str "main")]),
   ("repo_b", [("url", Yaml.str "https://example.org/b")])]

def fsDepsEx : String → Option (Except Unit Yaml) := fun s =>
  if s = "dependencies.repos" then
    some (Except.ok (Yaml.map
      [("repositories", Yaml.map (rawDepsEx.map fun q => (q.1, Yaml.map q.2)))]))
  else none

/-- C6 witness: the default candidate list, with only the first file present. -/
theorem extract_dependencies_first_manifest_witness :
    extract_dependencies fsDepsEx ["dependencies.repos", "dependencies.rosinstall"]
      = rawDepsEx.map (fun q =>
          { name := q.1
            url := yamlGet q.2 "url" (Yaml.str "")
            version := yamlGet q.2 "version" (Yaml.str "") }) :=
  (extract_dependencies_first_manifest fsDepsEx [] ["dependencies.rosinstall"]
    "dependencies.repos"
    [("repositories", Yaml.map (rawDepsEx.map fun q => (q.1, Yaml.map q.2)))]
    rawDepsEx
    (by simp) (by simp [fsDepsEx]) (by simp [yamlGet])).1

/-! Template renderer: package-manifest (XML) metadata extraction. -/
inductive Xml where
  | node (tag : String) (attrs : List (String × String)) (text : Option String)
    (children : List Xml)

def Xml.tagOf : Xml → String
  | Xml.node t _ _ _ => t

def Xml.attrsOf : Xml → List (String × String)
  | Xml.node _ a _ _ => a

def Xml.textOf : Xml → Option String
  | Xml.node _ _ t _ => t

def Xml.childrenOf : Xml → List Xml
  | Xml.node _ _ _ c => c

/-- The `ElementTree` call `root.find(tag)`: the first direct child with the tag. -/
def xmlFind (root : Xml) (tag : String) : Option Xml :=
  root.childrenOf.find? fun c => c.tagOf == tag

/-- The `ElementTree` call `root.findall(tag)`: all direct children with the tag. -/
def xmlFindAll (root : Xml) (tag : String) : List Xml :=
  root.childrenOf.filter fun c => c.tagOf == tag

/-- Python `dict.get(key, default)` on an attribute mapping. -/
def strGet (l : List (String × String)) (k d : String) : String :=
  match l with
  | [] => d
  | (k', v) :: rest => if k' = k then v else strGet rest k d

/-- One maintainer record as assembled by `extract_package_metadata`. -/
structure Maintainer where
  name : String
  email : String
  obfuscated_email : String
deriving DecidableEq

/-- The maintainer record built from an element's text and `email` attribute:
the obfuscated address replaces `@` and `.` with bracketed tokens, an empty
address staying empty (falsy in Python). -/
def mkMaintainer (t email : String) : Maintainer :=
  { name := pyStrip t
    email := email
    obfuscated_email :=
      if email = "" then ""
      else pyReplaceChar (pyReplaceChar email '@' " [at] ") '.' " [dot] " }

/-- The `description` step: `root.find("description")` followed by
`.text.strip()`; an element with no text raises (error). -/
def descStep (root : Xml) : Except Unit (Option String) :=
  match xmlFind root "description" with
  | none => Except.ok none
  | some el =>
    match el.textOf with
    | none => Except.error ()
    | some t => Except.ok (some (pyStrip t))

/-- The `license` step, identical in shape to the description step. -/
def licStep (root : Xml) : Except Unit (Option String) :=
  match xmlFind root "license" with
  | none => Except.ok none
  | some el =>
    match el.textOf with
    | none => Except.error ()
    | some t => Except.ok (some (pyStrip t))

/-- The maintainer loop: append a record per `maintainer` element; an element
with no text raises, which ends the loop with the records accumulated so far. -/
def buildMaintainers : List Xml → List Maintainer
  | [] => []
  | el :: rest =>
    match el.textOf with
    | none => []
    | some t => mkMaintainer t (strGet el.attrsOf "email" "") :: buildMaintainers rest

/-- Function `extract_package_metadata` from `generate_template_md.py`.  The input is
the state of `package.xml`: absent (`none`), present but failing to parse
(`error`), or parsed.  All work happens inside one `try`: any exception leaves
the values assigned so far (description, then license, then the maintainer
list accumulated up to the failing element). -/
def extract_package_metadata (pkgXml : Option (Except Unit Xml)) :
    Option String × Option String × List Maintainer :=
  match pkgXml with
  | none => (none, none, [])
  | some (Except.error _) => (none, none, [])
  | some (Except.ok root) =>
    match descStep root with
    | Except.error _ => (none, none, [])
    | Except.ok d =>
      match licStep root with
      | Except.error _ => (d, none, [])
      | Except.ok l => (d, l, buildMaintainers (xmlFindAll root "maintainer"))

/-- C7: with no `package.xml`, or with a `package.xml` that fails to parse,
`extract_package_metadata` returns (null, null, empty list); being a total
function of the modelled input, it never raises. -/
theorem extract_package_metadata_missing_or_malformed
    (pkgXml : Option (Except Unit Xml))
    (h : pkgXml = none ∨ ∃ e, pkgXml = some (Except.error e)) :
    extract_package_metadata pkgXml = (none, none, []) := by
  rcases h with h | ⟨e, h⟩ <;> rw [h] <;> rfl

/-- C7 witness: the missing-file case. -/
theorem extract_package_metadata_missing_or_malformed_witness :
    extract_package_metadata none = (none, none, []) :=
  extract_package_metadata_missing_or_malformed none (Or.inl rfl)

theorem buildMaintainers_truncates (pre post : List Xml) (bad : Xml)
    (hpre : ∀ el ∈ pre, el.textOf ≠ none)
    (hbad : bad.textOf = none) :
    buildMaintainers (pre ++ bad :: post)
      = pre.map fun el => mkMaintainer (el.textOf.getD "") (strGet el.attrsOf "email" "") := by
  induction pre with
  | nil => simp [buildMaintainers, hbad]
  | cons el pre ih =>
    have h1 : el.textOf ≠ none := hpre el (by simp)
    have h' : ∀ x ∈ pre, x.textOf ≠ none := fun x hx => hpre x (by simp [hx])
    cases ht : el.textOf with
    | none => exact absurd ht h1
    | some t =>
      simp only [List.cons_append, buildMaintainers, ht, List.map_cons, Option.getD_some,
        List.append_eq]
      rw [ih h']

/-- C10: when `package.xml` parses and the description and license steps
succeed, but a maintainer element part-way through the list has no text, the
exception raised there is caught and `extract_package_metadata` returns the
description, the license, and exactly the maintainer records accumulated
before the failing element — not (null, null, empty list). -/
theorem extract_package_metadata_accumulates
    (root : Xml) (d l : Option String) (pre post : List Xml) (bad : Xml)
    (hd : descStep root = Except.ok d)
    (hl : licStep root = Except.ok l)
    (hm : xmlFindAll root "maintainer" = pre ++ bad :: post)
    (hpre : ∀ el ∈ pre, el.textOf ≠ none)
    (hbad : bad.textOf = none) :
    extract_package_metadata (some (Except.ok root))
      = (d, l, pre.map fun el =>
          mkMaintainer (el.textOf.getD "") (strGet el.attrsOf "email" "")) := by
  simp only [extract_package_metadata, hd, hl, hm]
  rw [buildMaintainers_truncates pre post bad hpre hbad]

/-- C10 witness package manifest: description and license present, three
maintainer elements of which the second has no text. -/
def maintainerAEx : Xml := Xml.node "maintainer" [("email", "alice@example.org")]
  (some "Alice") []

def maintainerBadEx : Xml := Xml.node "maintainer" [] none []

def maintainerCEx : Xml := Xml.node "maintainer" [("email", "carol@example.org")]
  (some "Carol") []

def rootPkgEx : Xml := Xml.node "package" [] none
  [Xml.node "description" [] (some " A demo package ") [],
   Xml.node "license" [] (some "MIT") [],
   maintainerAEx, maintainerBadEx, maintainerCEx]

/-- C10 witness: only the first maintainer survives, with the description and
license kept. -/
theorem extract_package_metadata_accumulates_witness :
    extract_package_metadata (some (Except.ok rootPkgEx))
      = (some "A demo package", some "MIT", [maintainerAEx].map fun el =>
          mkMaintainer (el.textOf.getD "") (strGet el.attrsOf "email" "")) :=
  extract_package_metadata_accumulates rootPkgEx (some "A demo package") (some "MIT")
    [maintainerAEx] [maintainerCEx] maintainerBadEx
    rfl rfl rfl (by decide) rfl
